import Mathlib

/-!
Shallow embedding of `env_wrapper.go` (package env_wrapper): an accessor
facade over a snapshot of docker-secret files and the live process
environment.  Strings are modelled as `List Char`; the process environment
and the secret snapshot are modelled as total functions from key to value,
with the empty list standing for "absent" (exactly the Go semantics of
`os.Getenv` and of a `map[string]string` lookup miss).
-/

namespace EnvWrapperModel

/-- Abbreviation: a Go string, modelled as its list of characters. -/
abbrev Str := List Char

/-- Convert a Lean string literal to the model representation. -/
def str (s : String) : Str := s.data

/-- Whitespace predicate of Go `unicode.IsSpace`, as used by
`strings.TrimSpace`: the ASCII whitespace characters plus the Unicode
code points with the White_Space property. -/
def goIsSpace (c : Char) : Bool :=
  (0x9 ≤ c.toNat ∧ c.toNat ≤ 0xD) ∨ c.toNat = 0x20 ∨
  c.toNat = 0x85 ∨ c.toNat = 0xA0 ∨ c.toNat = 0x1680 ∨
  (0x2000 ≤ c.toNat ∧ c.toNat ≤ 0x200A) ∨
  c.toNat = 0x2028 ∨ c.toNat = 0x2029 ∨ c.toNat = 0x202F ∨
  c.toNat = 0x205F ∨ c.toNat = 0x3000

/-- Go `strings.TrimSpace`: drop leading and trailing whitespace. -/
def goTrimSpace (s : Str) : Str :=
  ((s.dropWhile goIsSpace).reverse.dropWhile goIsSpace).reverse

/-- Go `strings.TrimRight(s, "\\//")` as used in `New`: drop trailing
characters belonging to the cutset, i.e. backslash or slash. -/
def trimRightSlashes (s : Str) : Str :=
  (s.reverse.dropWhile (fun c => c = '\\' ∨ c = '/')).reverse

/-- Go `strings.ToUpper` restricted to the ASCII range (the only casing
exercised by the claims): map each character through ASCII upcasing. -/
def goToUpper (s : Str) : Str := s.map Char.toUpper

/-- Go `strings.TrimPrefix(s, pre)`: remove `pre` when it is a prefix,
otherwise return `s` unchanged. -/
def goTrimPrefix (s pre : Str) : Str :=
  if pre.isPrefixOf s then s.drop pre.length else s

/-- Splitting on a non-empty separator, Go `strings.Split` semantics:
cut before every leftmost, non-overlapping occurrence of `sep`.  The
`fuel` argument only drives structural recursion: every step consumes at
least one character, so any `fuel` at least the length of the string
gives the same answer (see `goSplitGo_fuel_adequate`). -/
def goSplitGo (sep : Str) : Nat → Str → List Str
  | _, [] => [[]]
  | 0, s => [s]
  | fuel + 1, c :: rest =>
    if sep.isPrefixOf (c :: rest) then
      [] :: goSplitGo sep fuel ((c :: rest).drop sep.length)
    else
      match goSplitGo sep fuel rest with
      | [] => [[c]]
      | p :: ps => (c :: p) :: ps

/-- Go `strings.Split(s, sep)`: with an empty separator the string is
exploded into its individual characters, otherwise split on the literal
separator. -/
def goSplit (s sep : Str) : List Str :=
  if sep = [] then s.map (fun c => [c])
  else goSplitGo sep s.length s

/-- Go `strconv.ParseBool`: the exact literal set accepted by the
standard library. -/
def goParseBool (s : Str) : Option Bool :=
  if s = str "1" ∨ s = str "t" ∨ s = str "T" ∨
     s = str "true" ∨ s = str "TRUE" ∨ s = str "True" then some true
  else if s = str "0" ∨ s = str "f" ∨ s = str "F" ∨
     s = str "false" ∨ s = str "FALSE" ∨ s = str "False" then some false
  else none

/-- Decimal digit run: `some n` when the list is non-empty and all
characters are decimal digits, with `n` its base-10 value. -/
def parseDigits (l : Str) : Option Nat :=
  if l = [] then none
  else if l.all (fun c => '0' ≤ c ∧ c ≤ '9') then
    some (l.foldl (fun n c => n * 10 + (c.toNat - 48)) 0)
  else none

/-- Go `strconv.Atoi` (= `ParseInt(s, 10, 0)` with 64-bit `int`): optional
sign, a non-empty run of decimal digits, result within the signed 64-bit
range; any syntax or range error yields `none`. -/
def goAtoi (s : Str) : Option Int :=
  match s with
  | [] => none
  | c :: rest =>
    let digits : Str := if c = '+' ∨ c = '-' then rest else c :: rest
    match parseDigits digits with
    | none => none
    | some n =>
      if c = '-' then
        if n ≤ 2 ^ 63 then some (-(n : Int)) else none
      else
        if n < 2 ^ 63 then some (n : Int) else none

/-- A directory entry as returned by `ioutil.ReadDir`: name, directory
flag, size in bytes. -/
structure FileEntry where
  name : Str
  isDir : Bool
  size : Nat
deriving DecidableEq

/-- The ambient filesystem, as the three operations `New` performs:
`statNotExist p` models `os.IsNotExist` applied to the error of
`os.Stat(p)` (true when the path does not exist); `readDir` models
`ioutil.ReadDir` (`none` on error); `readFile` models `ioutil.ReadFile`
(`none` on error). -/
structure FileSystem where
  statNotExist : Str → Bool
  readDir : Str → Option (List FileEntry)
  readFile : Str → Option Str

/-- The ambient process environment: `os.Getenv` returns the value, or
the empty string when the variable is unset. -/
abbrev Env := Str → Str

/-- The accessor: `type env_wrapper struct { envSecrets map[string]string }`,
with the map modelled as a total function defaulting to the empty string. -/
structure EnvWrapper where
  envSecrets : Str → Str

/-- Go map store `m[k] = v`. -/
def mapSet (m : Str → Str) (k v : Str) : Str → Str :=
  fun q => if q = k then v else m q

/-- The cleaned directory path computed at the top of `New`:
`strings.TrimRight(strings.TrimSpace(secretsDir), "\\//")`. -/
def cleanPath (secretsDir : Str) : Str :=
  trimRightSlashes (goTrimSpace secretsDir)

/-- Body of the directory-scan loop of `New`: fold one directory entry
into the secrets map. -/
def scanEntry (fs : FileSystem) (path : Str) (m : Str → Str)
    (file : FileEntry) : Str → Str :=
  if (str "ENV_").isPrefixOf file.name ∧ file.isDir = false ∧ file.size > 0 then
    match fs.readFile (path ++ ('/' :: file.name)) with
    | some bval =>
      let sval := goTrimSpace bval
      let keyname := goTrimPrefix (goToUpper file.name) (str "ENV_")
      mapSet m keyname sval
    | none => m
  else m

/-- `func New(secretsDir string) *env_wrapper`: trim the directory
argument, and when the path exists and is listable, snapshot every
regular `ENV_`-prefixed file of positive size whose read succeeds. -/
def New (fs : FileSystem) (secretsDir : Str) : EnvWrapper :=
  let path := cleanPath secretsDir
  if fs.statNotExist path then ⟨fun _ => []⟩
  else
    match fs.readDir path with
    | none => ⟨fun _ => []⟩
    | some files => ⟨files.foldl (scanEntry fs path) (fun _ => [])⟩

/-- `func Default() *env_wrapper`: `New("/run/secrets")`. -/
def Default (fs : FileSystem) : EnvWrapper :=
  New fs (str "/run/secrets")

/-- `func (w *env_wrapper) GetStringDef(name, defval string) string`. -/
def GetStringDef (w : EnvWrapper) (env : Env) (name defval : Str) : Str :=
  let upname := goToUpper name
  let senvval := w.envSecrets upname
  if senvval.length > 0 then senvval
  else
    let envval := goTrimSpace (env upname)
    if envval.length > 0 then envval else defval

/-- `func (w *env_wrapper) GetString(name string) string`. -/
def GetString (w : EnvWrapper) (env : Env) (name : Str) : Str :=
  GetStringDef w env name []

/-- `func (w *env_wrapper) GetBoolDef(name string, defval bool) bool`. -/
def GetBoolDef (w : EnvWrapper) (env : Env) (name : Str) (defval : Bool) :
    Bool :=
  let strval := GetString w env name
  if strval.length > 0 then
    match goParseBool strval with
    | some res => res
    | none => defval
  else defval

/-- `func (w *env_wrapper) GetBool(name string) bool`. -/
def GetBool (w : EnvWrapper) (env : Env) (name : Str) : Bool :=
  GetBoolDef w env name false

/-- `func (w *env_wrapper) GetIntDef(name string, defval int) int`. -/
def GetIntDef (w : EnvWrapper) (env : Env) (name : Str) (defval : Int) :
    Int :=
  let strval := GetString w env name
  if strval.length > 0 then
    match goAtoi strval with
    | some res => res
    | none => defval
  else defval

/-- `func (w *env_wrapper) GetInt(name string) int`. -/
def GetInt (w : EnvWrapper) (env : Env) (name : Str) : Int :=
  GetIntDef w env name 0

/-- `func (w *env_wrapper) GetStringArraySep(name, seperator string) []string`. -/
def GetStringArraySep (w : EnvWrapper) (env : Env) (name seperator : Str) :
    List Str :=
  let strval := GetString w env name
  if strval.length > 0 then
    (goSplit strval seperator).foldl
      (fun res s =>
        let cleans := goTrimSpace s
        if cleans.length > 0 then res ++ [cleans] else res) []
  else []

/-- `func (w *env_wrapper) GetStringArray(name string) []string`. -/
def GetStringArray (w : EnvWrapper) (env : Env) (name : Str) : List Str :=
  GetStringArraySep w env name (str " ")

/-! ### Spec-side reference definitions (written from the spec's words) -/

/-- Reference fallback chain, written from the spec's words (§4.2):
normalize the name to uppercase; return the Secret Snapshot value when it
is non-empty after trimming; otherwise return the trimmed environment
value when that is non-empty; otherwise return the default unchanged. -/
def specFallbackChain (w : EnvWrapper) (env : Env) (name d : Str) : Str :=
  let up := goToUpper name
  if (goTrimSpace (w.envSecrets up)).length > 0 then w.envSecrets up
  else if (goTrimSpace (env up)).length > 0 then goTrimSpace (env up)
  else d

/-- Pure environment fallback, written from the spec's words (§8.8): the
behavior of string retrieval as if no Secret Snapshot existed. -/
def envOnlyFallback (env : Env) (name d : Str) : Str :=
  if (goTrimSpace (env (goToUpper name))).length > 0 then
    goTrimSpace (env (goToUpper name))
  else d

/-- Reference split pipeline, written from the spec's words (§4.5):
empty resolved string gives the empty sequence; otherwise split on the
literal separator, trim each part, and discard parts that become empty. -/
def specSplitTrimDrop (resolved sep : Str) : List Str :=
  if resolved = [] then []
  else ((goSplit resolved sep).map goTrimSpace).filter (fun p => !p.isEmpty)

/-- Base-10 value of a run of decimal digits. -/
def digitsVal (l : Str) : Nat :=
  l.foldl (fun n c => n * 10 + (c.toNat - 48)) 0

/-- Non-empty run of decimal digits. -/
def decDigits (l : Str) : Bool :=
  !l.isEmpty && l.all (fun c => '0' ≤ c ∧ c ≤ '9')

/-- A well-formed base-10 numeral: an optional sign followed by at least
one decimal digit. -/
def isNumeral (s : Str) : Bool :=
  match s with
  | [] => false
  | c :: rest =>
    if c = '+' ∨ c = '-' then decDigits rest else decDigits (c :: rest)

/-- The mathematical integer denoted by a well-formed numeral. -/
def numeralValue (s : Str) : Int :=
  match s with
  | [] => 0
  | c :: rest =>
    if c = '-' then -(digitsVal rest : Int)
    else if c = '+' then (digitsVal rest : Int)
    else (digitsVal (c :: rest) : Int)

/-! ### Concrete fixtures used by witnesses and counterexamples -/

/-- Fixture: an accessor with an empty secret snapshot. -/
def wEmpty : EnvWrapper := ⟨fun _ => []⟩

/-- Fixture environment holding a handful of variables. -/
def envFix : Env := fun k =>
  if k = str "FLAG" then str "tRue"
  else if k = str "X" then str "True"
  else if k = str "Y" then str "False"
  else if k = str "Z" then str "maybe"
  else if k = str "LIST" then str " a, b ,,c "
  else if k = str "N" then str "42"
  else if k = str "M" then str "abc"
  else if k = str "BIG" then str "9223372036854775808"
  else if k = str "V" then str " val "
  else if k = str "WS" then str " bar "
  else []

/-- Fixture environment with every variable unset. -/
def envUnset : Env := fun _ => []

/-- Fixture filesystem: `/run/secrets` holds `ENV_FOO` (content `bar`)
and `ENV_WS` (whitespace-only content of size 3); no other path exists. -/
def fsFix : FileSystem :=
  { statNotExist := fun p => !(p = str "/run/secrets")
  , readDir := fun p =>
      if p = str "/run/secrets" then
        some [⟨str "ENV_FOO", false, 3⟩, ⟨str "ENV_WS", false, 3⟩]
      else none
  , readFile := fun p =>
      if p = str "/run/secrets/ENV_FOO" then some (str "bar")
      else if p = str "/run/secrets/ENV_WS" then some (str "   ")
      else none }

/-- Fixture filesystem where no path exists. -/
def fsNone : FileSystem := ⟨fun _ => true, fun _ => none, fun _ => none⟩

/-- Fixture filesystem whose directory listing names one secret file but
where every individual file read fails. -/
def fsReadFail : FileSystem :=
  { statNotExist := fun p => !(p = str "/run/secrets")
  , readDir := fun p =>
      if p = str "/run/secrets" then some [⟨str "ENV_A", false, 3⟩] else none
  , readFile := fun _ => none }

/-! ### General lemmas about trimming -/

theorem dropWhile_nil_iff (p : Char → Bool) (l : Str) :
    l.dropWhile p = [] ↔ ∀ x ∈ l, p x = true := by
  induction l with
  | nil => simp
  | cons a t ih =>
    by_cases h : p a = true
    · simp [List.dropWhile_cons, h, ih]
    · rw [List.dropWhile_cons_of_neg (by simp [h])]
      constructor
      · intro hh; exact absurd hh (List.cons_ne_nil a t)
      · intro hh; exact absurd (hh a (List.mem_cons_self a t)) (by simp [h])

theorem goTrimSpace_nil : goTrimSpace [] = [] := rfl

theorem goTrimSpace_eq_nil_iff (s : Str) :
    goTrimSpace s = [] ↔ ∀ c ∈ s, goIsSpace c = true := by
  unfold goTrimSpace
  rw [List.reverse_eq_nil_iff, dropWhile_nil_iff]
  constructor
  · intro h c hc
    have hc2 : c ∈ s.takeWhile goIsSpace ++ s.dropWhile goIsSpace := by
      rw [List.takeWhile_append_dropWhile]; exact hc
    rcases List.mem_append.mp hc2 with h1 | h1
    · exact List.mem_takeWhile_imp h1
    · exact h c (List.mem_reverse.mpr h1)
  · intro h c hc
    exact h c (List.dropWhile_subset _ (List.mem_reverse.mp hc))

theorem goTrimSpace_trim_nil_iff (b : Str) :
    goTrimSpace (goTrimSpace b) = [] ↔ goTrimSpace b = [] := by
  constructor
  · intro h
    by_contra hne
    have hu : (b.dropWhile goIsSpace).reverse.dropWhile goIsSpace ≠ [] := by
      intro hh
      apply hne
      unfold goTrimSpace
      rw [hh]
      rfl
    have hall := (goTrimSpace_eq_nil_iff (goTrimSpace b)).mp h
    have hgb : goTrimSpace b =
        ((b.dropWhile goIsSpace).reverse.dropWhile goIsSpace).reverse := rfl
    have hmem :
        (((b.dropWhile goIsSpace).reverse.dropWhile goIsSpace).head hu) ∈
          goTrimSpace b := by
      rw [hgb]
      exact List.mem_reverse.mpr (List.head_mem hu)
    have htrue := hall _ hmem
    have hfalse := List.head_dropWhile_not goIsSpace
      (b.dropWhile goIsSpace).reverse hu
    rw [htrue] at hfalse
    exact Bool.noConfusion hfalse
  · intro h
    rw [h]
    rfl

/-! ### The secret snapshot only holds trimmed values -/

theorem scanFold_trimmed (fs : FileSystem) (path : Str) (files : List FileEntry)
    (m : Str → Str) (hm : ∀ k, m k = [] ∨ ∃ b, m k = goTrimSpace b) (k : Str) :
    (files.foldl (scanEntry fs path) m) k = [] ∨
      ∃ b, (files.foldl (scanEntry fs path) m) k = goTrimSpace b := by
  induction files generalizing m with
  | nil => exact hm k
  | cons f t ih =>
    rw [List.foldl_cons]
    apply ih
    intro q
    unfold scanEntry
    by_cases hc : (str "ENV_").isPrefixOf f.name = true ∧ f.isDir = false ∧ f.size > 0
    · rw [if_pos hc]
      cases hrf : fs.readFile (path ++ ('/' :: f.name)) with
      | none => exact hm q
      | some bval =>
        dsimp only [mapSet]
        by_cases hq : q = goTrimPrefix (goToUpper f.name) (str "ENV_")
        · rw [if_pos hq]
          exact Or.inr ⟨bval, rfl⟩
        · rw [if_neg hq]
          exact hm q
    · rw [if_neg hc]
      exact hm q

theorem new_snapshot_trimmed (fs : FileSystem) (dir k : Str) :
    (New fs dir).envSecrets k = [] ∨
      ∃ b, (New fs dir).envSecrets k = goTrimSpace b := by
  unfold New
  by_cases hs : fs.statNotExist (cleanPath dir) = true
  · rw [if_pos hs]
    exact Or.inl rfl
  · rw [if_neg hs]
    cases hrd : fs.readDir (cleanPath dir) with
    | none => exact Or.inl rfl
    | some files =>
      exact scanFold_trimmed fs _ files _ (fun _ => Or.inl rfl) k

/-- C1: for every key name and default, `GetStringDef` on an accessor
built by `New` equals the reference fallback chain of the spec: return
the snapshot value when it is non-empty after trimming, else the trimmed
environment value when non-empty, else the default unchanged. -/
theorem getStringDef_matches_spec_chain (fs : FileSystem) (dir : Str)
    (env : Env) (name d : Str) :
    GetStringDef (New fs dir) env name d =
      specFallbackChain (New fs dir) env name d := by
  rcases new_snapshot_trimmed fs dir (goToUpper name) with h | ⟨b, h⟩
  · simp only [GetStringDef, specFallbackChain]
    rw [h, goTrimSpace_nil]
  · simp only [GetStringDef, specFallbackChain]
    rw [h]
    by_cases hb : goTrimSpace b = []
    · rw [hb, goTrimSpace_nil]
    · have h1 : (goTrimSpace b).length > 0 := List.length_pos.mpr hb
      have h2 : (goTrimSpace (goTrimSpace b)).length > 0 :=
        List.length_pos.mpr (fun hh => hb ((goTrimSpace_trim_nil_iff b).mp hh))
      rw [if_pos h1, if_pos h2]

/-- C2: a secret whose file content trims to the empty string does not
shadow the Environment Store: `GetString` falls through and returns the
trimmed environment value when that is non-empty. -/
theorem secret_empty_not_shadowing (fs : FileSystem) (dir : Str) (env : Env)
    (name b : Str) (hb : goTrimSpace b = [])
    (hsec : (New fs dir).envSecrets (goToUpper name) = goTrimSpace b)
    (henv : (goTrimSpace (env (goToUpper name))).length > 0) :
    GetString (New fs dir) env name = goTrimSpace (env (goToUpper name)) := by
  simp only [GetString, GetStringDef]
  rw [hsec, hb]
  simp [henv]

/-- Witness for C2: the secret directory holds a whitespace-only file
`ENV_WS` of size 3, the environment holds `WS=" bar "`, and the accessor
returns `"bar"`. -/
theorem secret_empty_not_shadowing_witness :
    GetString (New fsFix (str "/run/secrets")) envFix (str "ws") =
      goTrimSpace (envFix (goToUpper (str "ws"))) :=
  secret_empty_not_shadowing fsFix (str "/run/secrets") envFix (str "ws")
    (str "   ") (by decide) (by decide) (by decide)

/-- C3 counterexample: with a filesystem where `/run/secrets` holds the
secret `ENV_FOO` (content `bar`) and the empty path does not exist (as
`os.Stat("")` always fails), `New("")` yields an empty Secret Snapshot
and does not select the default directory: it disagrees with `Default()`
on key `FOO`. -/
theorem new_empty_dir_counterexample :
    (New fsFix (str "")).envSecrets (str "FOO") = [] ∧
    (Default fsFix).envSecrets (str "FOO") = str "bar" ∧
    (New fsFix (str "")).envSecrets (str "FOO") ≠
      (Default fsFix).envSecrets (str "FOO") := by
  decide

/-- C3 (amended): construction with the empty string as the
secrets-directory argument behaves as a nonexistent directory — the
cleaned path is the empty path, which the stat reports as nonexistent —
yielding an empty Secret Snapshot and pure environment fallback; the
default directory `/run/secrets` is selected only by the separate
`Default` constructor. -/
theorem new_empty_dir_amended (fs : FileSystem) (env : Env) (name d k : Str)
    (h : fs.statNotExist [] = true) :
    (New fs (str "")).envSecrets k = [] ∧
    GetStringDef (New fs (str "")) env name d = envOnlyFallback env name d ∧
    Default fs = New fs (str "/run/secrets") := by
  have hw : New fs (str "") = ⟨fun _ => []⟩ := by
    unfold New
    rw [show cleanPath (str "") = [] from rfl, if_pos h]
  refine ⟨by rw [hw], ?_, rfl⟩
  rw [hw]
  rfl

/-- Witness for the amended C3 at a concrete filesystem. -/
theorem new_empty_dir_amended_witness :
    fsFix.statNotExist [] = true ∧
    (New fsFix (str "")).envSecrets (str "FOO") = [] :=
  ⟨by decide,
   (new_empty_dir_amended fsFix envFix (str "x") [] (str "FOO") (by decide)).1⟩

/-- When every individual file read fails, the scan loop leaves the
snapshot unchanged. -/
theorem foldl_scan_no_reads (fs : FileSystem) (path : Str)
    (files : List FileEntry) (m : Str → Str)
    (h : ∀ f ∈ files, fs.readFile (path ++ ('/' :: f.name)) = none) :
    files.foldl (scanEntry fs path) m = m := by
  induction files generalizing m with
  | nil => rfl
  | cons f t ih =>
    rw [List.foldl_cons]
    have hf : scanEntry fs path m f = m := by
      unfold scanEntry
      rw [h f (List.mem_cons_self f t)]
      split
      · rfl
      · rfl
    rw [hf]
    exact ih m (fun g hg => h g (List.mem_cons_of_mem f hg))

/-- C5: construction tolerates every filesystem error: it always returns
an accessor, a nonexistent directory or a failed directory listing gives
pure environment fallback on every subsequent read, and when the listing
succeeds but every individual file read fails, the snapshot has no
entries. -/
theorem new_total_error_tolerant (fs : FileSystem) (dir : Str) (env : Env)
    (name d k : Str) :
    ((fs.statNotExist (cleanPath dir) = true ∨
        fs.readDir (cleanPath dir) = none) →
      GetStringDef (New fs dir) env name d = envOnlyFallback env name d) ∧
    (∀ files, fs.readDir (cleanPath dir) = some files →
      (∀ f ∈ files, fs.readFile (cleanPath dir ++ ('/' :: f.name)) = none) →
      (New fs dir).envSecrets k = []) := by
  constructor
  · intro h
    have hw : New fs dir = ⟨fun _ => []⟩ := by
      unfold New
      rcases h with h | h
      · rw [if_pos h]
      · by_cases hs : fs.statNotExist (cleanPath dir) = true
        · rw [if_pos hs]
        · rw [if_neg hs, h]
    rw [hw]
    rfl
  · intro files hrd hrf
    unfold New
    by_cases hs : fs.statNotExist (cleanPath dir) = true
    · rw [if_pos hs]
    · rw [if_neg hs, hrd]
      dsimp only
      rw [foldl_scan_no_reads fs (cleanPath dir) files _ hrf]

/-- Witness for C5: a filesystem where nothing exists, and one where the
directory lists a secret file but every read of it fails. -/
theorem new_total_error_tolerant_witness :
    GetStringDef (New fsNone (str "/run/secrets")) envFix (str "v")
        (str "d") = envOnlyFallback envFix (str "v") (str "d") ∧
    (New fsReadFail (str "/run/secrets")).envSecrets (str "A") = [] :=
  ⟨(new_total_error_tolerant fsNone (str "/run/secrets") envFix (str "v")
      (str "d") (str "A")).1 (Or.inl (by decide)),
   (new_total_error_tolerant fsReadFail (str "/run/secrets") envFix (str "v")
      (str "d") (str "A")).2 [⟨str "ENV_A", false, 3⟩] (by decide) (by decide)⟩

/-- C6: environment reads are live, never cached: the environment is an
explicit input to each call, so for a key absent from the snapshot a read
under an environment holding a non-empty value returns the trimmed value,
and a read under an environment where the variable is unset returns the
default. -/
theorem env_reads_live (w : EnvWrapper) (env1 env2 : Env) (name d : Str)
    (hsec : w.envSecrets (goToUpper name) = [])
    (h1 : (goTrimSpace (env1 (goToUpper name))).length > 0)
    (h2 : env2 (goToUpper name) = []) :
    GetStringDef w env1 name d = goTrimSpace (env1 (goToUpper name)) ∧
    GetStringDef w env2 name d = d := by
  constructor
  · simp only [GetStringDef]
    rw [hsec]
    simp [h1]
  · simp only [GetStringDef]
    rw [hsec, h2, goTrimSpace_nil]
    simp

/-- Witness for C6: set then unset `V` in the environment. -/
theorem env_reads_live_witness :
    GetStringDef wEmpty envFix (str "v") (str "dflt") =
      goTrimSpace (envFix (goToUpper (str "v"))) ∧
    GetStringDef wEmpty envUnset (str "v") (str "dflt") = str "dflt" :=
  env_reads_live wEmpty envFix envUnset (str "v") (str "dflt")
    (by decide) (by decide) (by decide)

/-! ### Boolean retrieval -/

theorem getBoolDef_eq (w : EnvWrapper) (env : Env) (name : Str) (d : Bool) :
    GetBoolDef w env name d = (goParseBool (GetString w env name)).getD d := by
  simp only [GetBoolDef]
  cases hs : GetString w env name with
  | nil => rfl
  | cons c t =>
    rw [if_pos (by simp : ((c :: t : Str)).length > 0)]
    cases goParseBool (c :: t) with
    | none => rfl
    | some b => rfl

/-- C4 counterexample: the environment resolves `flag` to `tRue`, a
casing of `true`, yet `GetBoolDef` with default `false` returns `false`
rather than `true`: parsing is not case-insensitive beyond the exact
literal set of `strconv.ParseBool`. -/
theorem getBool_casing_counterexample :
    GetString wEmpty envFix (str "flag") = str "tRue" ∧
    GetBoolDef wEmpty envFix (str "flag") false = false := by
  decide

/-- C4 (amended): `GetBoolDef` parses the resolved string with Go
`strconv.ParseBool`, which accepts exactly the literals
`1,t,T,true,TRUE,True` for true and `0,f,F,false,FALSE,False` for false;
any other resolved string — including other casings such as `tRue`, and
the empty string — yields the caller default; and `GetBool` equals
`GetBoolDef` with default false. -/
theorem getBoolDef_literal_set (w : EnvWrapper) (env : Env) (name : Str)
    (d : Bool) :
    (GetString w env name ∈ [str "1", str "t", str "T",
        str "true", str "TRUE", str "True"] →
      GetBoolDef w env name d = true) ∧
    (GetString w env name ∈ [str "0", str "f", str "F",
        str "false", str "FALSE", str "False"] →
      GetBoolDef w env name d = false) ∧
    (GetString w env name ∉ [str "1", str "t", str "T",
        str "true", str "TRUE", str "True", str "0", str "f", str "F",
        str "false", str "FALSE", str "False"] →
      GetBoolDef w env name d = d) ∧
    GetBool w env name = GetBoolDef w env name false := by
  refine ⟨?_, ?_, ?_, rfl⟩
  · intro h
    rw [getBoolDef_eq]
    simp only [List.mem_cons, List.not_mem_nil, or_false] at h
    rcases h with h | h | h | h | h | h <;> rw [h] <;> rfl
  · intro h
    rw [getBoolDef_eq]
    simp only [List.mem_cons, List.not_mem_nil, or_false] at h
    rcases h with h | h | h | h | h | h <;> rw [h] <;> rfl
  · intro h
    rw [getBoolDef_eq]
    simp only [List.mem_cons, List.not_mem_nil, or_false] at h
    push_neg at h
    obtain ⟨h1, h2, h3, h4, h5, h6, h7, h8, h9, h10, h11, h12⟩ := h
    have hpb : goParseBool (GetString w env name) = none := by
      unfold goParseBool
      rw [if_neg (by push_neg; exact ⟨h1, h2, h3, h4, h5, h6⟩),
        if_neg (by push_neg; exact ⟨h7, h8, h9, h10, h11, h12⟩)]
    rw [hpb]
    rfl

/-- Witness for the amended C4: `X=True` parses true, `Y=False` parses
false, `Z=maybe` yields the default. -/
theorem getBoolDef_literal_set_witness :
    GetBoolDef wEmpty envFix (str "x") false = true ∧
    GetBoolDef wEmpty envFix (str "y") true = false ∧
    GetBoolDef wEmpty envFix (str "z") false = false :=
  ⟨(getBoolDef_literal_set wEmpty envFix (str "x") false).1 (by decide),
   (getBoolDef_literal_set wEmpty envFix (str "y") true).2.1 (by decide),
   (getBoolDef_literal_set wEmpty envFix (str "z") false).2.2.1 (by decide)⟩

/-! ### Array retrieval -/

/-- The collection loop of `GetStringArraySep` appends, in order, exactly
the parts that trim to a non-empty string. -/
theorem foldl_trim_collect (parts : List Str) (acc : List Str) :
    parts.foldl (fun res s =>
      let cleans := goTrimSpace s
      if cleans.length > 0 then res ++ [cleans] else res) acc =
    acc ++ (parts.map goTrimSpace).filter (fun p => !p.isEmpty) := by
  induction parts generalizing acc with
  | nil => simp
  | cons a t ih =>
    rw [List.foldl_cons, List.map_cons, List.filter_cons]
    dsimp only
    by_cases h : (goTrimSpace a).length > 0
    · rw [if_pos h, ih]
      have hne : goTrimSpace a ≠ [] := List.ne_nil_of_length_pos h
      have hpred : (!(goTrimSpace a).isEmpty) = true := by
        simp [List.isEmpty_iff, hne]
      rw [if_pos hpred, List.append_assoc]
      rfl
    · have hnil : goTrimSpace a = [] := by
        rcases hx : goTrimSpace a with _ | ⟨c, r⟩
        · rfl
        · rw [hx] at h
          simp at h
      rw [if_neg h, ih]
      have hpred : ¬ ((!(goTrimSpace a).isEmpty) = true) := by
        simp [hnil]
      rw [if_neg hpred]

/-- C7: `GetStringArraySep` matches the reference pipeline of the spec —
empty resolved string gives the empty sequence, otherwise split on the
literal separator, trim each part, discard parts that trim to empty,
keeping split order and duplicates — and on value `" a, b ,,c "` with
separator `","` it returns `["a","b","c"]`. -/
theorem getStringArraySep_matches_spec (w : EnvWrapper) (env : Env)
    (name sep : Str) :
    GetStringArraySep w env name sep =
      specSplitTrimDrop (GetString w env name) sep ∧
    GetStringArraySep wEmpty envFix (str "LIST") (str ",") =
      [str "a", str "b", str "c"] := by
  constructor
  · simp only [GetStringArraySep, specSplitTrimDrop]
    cases hs : GetString w env name with
    | nil => rfl
    | cons c t =>
      rw [if_pos (by simp : ((c :: t : Str)).length > 0),
        if_neg (List.cons_ne_nil c t), foldl_trim_collect]
      rfl
  · decide

theorem goTrimSpace_singleton (c : Char) :
    goTrimSpace [c] = if goIsSpace c then [] else [c] := by
  by_cases h : goIsSpace c = true
  · simp [goTrimSpace, h]
  · simp [goTrimSpace, h]

/-- Exploding into one-character strings, trimming each and dropping the
empties keeps exactly the non-whitespace characters, in order. -/
theorem explode_trim_filter (l : Str) :
    ((l.map (fun c => [c])).map goTrimSpace).filter (fun p => !p.isEmpty) =
      (l.filter (fun c => !goIsSpace c)).map (fun c => [c]) := by
  induction l with
  | nil => rfl
  | cons c t ih =>
    rw [List.map_cons, List.map_cons, List.filter_cons, List.filter_cons,
      goTrimSpace_singleton]
    cases hgc : goIsSpace c with
    | true => simpa using ih
    | false => simpa using ih

/-- C9: with the empty separator the resolved value is exploded into its
individual characters, so the result is the ordered sequence of its
non-whitespace characters as one-character strings. -/
theorem getStringArraySep_empty_separator (w : EnvWrapper) (env : Env)
    (name : Str) :
    GetStringArraySep w env name [] =
      ((GetString w env name).filter (fun c => !goIsSpace c)).map
        (fun c => [c]) := by
  simp only [GetStringArraySep]
  cases hs : GetString w env name with
  | nil => rfl
  | cons c t =>
    rw [if_pos (by simp : ((c :: t : Str)).length > 0),
      show goSplit (c :: t) [] = (c :: t).map (fun x => [x]) from by
        simp [goSplit],
      foldl_trim_collect, List.nil_append, explode_trim_filter]

/-! ### Integer retrieval -/

theorem getIntDef_eq (w : EnvWrapper) (env : Env) (name : Str) (d : Int) :
    GetIntDef w env name d = (goAtoi (GetString w env name)).getD d := by
  simp only [GetIntDef]
  cases hs : GetString w env name with
  | nil => rfl
  | cons c t =>
    rw [if_pos (by simp : ((c :: t : Str)).length > 0)]
    cases goAtoi (c :: t) with
    | none => rfl
    | some n => rfl

theorem parseDigits_eq (l : Str) :
    parseDigits l = if decDigits l then some (digitsVal l) else none := by
  unfold parseDigits decDigits digitsVal
  rcases l with _ | ⟨c, t⟩
  · rfl
  · rw [if_neg (List.cons_ne_nil c t)]
    by_cases h : (c :: t).all (fun c => '0' ≤ c ∧ c ≤ '9') = true
    · rw [if_pos h, if_pos (by
        simp only [List.isEmpty_cons, Bool.not_false, Bool.true_and]
        exact h)]
    · rw [if_neg h, if_neg (by
        simp only [List.isEmpty_cons, Bool.not_false, Bool.true_and]
        exact h)]

/-- `goAtoi` succeeds with the numeral value on every well-formed numeral
within the signed 64-bit range. -/
theorem goAtoi_eq_some (s : Str) (hnum : isNumeral s = true)
    (hlo : -(2 ^ 63) ≤ numeralValue s) (hhi : numeralValue s < 2 ^ 63) :
    goAtoi s = some (numeralValue s) := by
  rcases s with _ | ⟨c, t⟩
  · exact absurd hnum (by simp [isNumeral])
  · have hpow : (2 : Int) ^ 63 = 9223372036854775808 := by norm_num
    have hpown : (2 : Nat) ^ 63 = 9223372036854775808 := by norm_num
    by_cases hm : c = '-'
    · have hdec : decDigits t = true := by
        simp only [isNumeral] at hnum
        rwa [if_pos (Or.inr hm)] at hnum
      have hval : numeralValue (c :: t) = -(digitsVal t : Int) := by
        simp only [numeralValue]
        rw [if_pos hm]
      have hle : digitsVal t ≤ 2 ^ 63 := by
        rw [hval, hpow] at hlo
        rw [hpown]
        omega
      simp only [goAtoi]
      rw [if_pos (Or.inr hm), parseDigits_eq, if_pos hdec]
      dsimp only
      rw [if_pos hm, if_pos hle, hval]
    · by_cases hp : c = '+'
      · have hdec : decDigits t = true := by
          simp only [isNumeral] at hnum
          rwa [if_pos (Or.inl hp)] at hnum
        have hval : numeralValue (c :: t) = (digitsVal t : Int) := by
          simp only [numeralValue]
          rw [if_neg hm, if_pos hp]
        have hlt : digitsVal t < 2 ^ 63 := by
          rw [hval, hpow] at hhi
          rw [hpown]
          omega
        simp only [goAtoi]
        rw [if_pos (Or.inl hp), parseDigits_eq, if_pos hdec]
        dsimp only
        rw [if_neg hm, if_pos hlt, hval]
      · have hns : ¬ (c = '+' ∨ c = '-') := by
          rintro (h | h)
          exacts [hp h, hm h]
        have hdec : decDigits (c :: t) = true := by
          simp only [isNumeral] at hnum
          rwa [if_neg hns] at hnum
        have hval : numeralValue (c :: t) = (digitsVal (c :: t) : Int) := by
          simp only [numeralValue]
          rw [if_neg hm, if_neg hp]
        have hlt : digitsVal (c :: t) < 2 ^ 63 := by
          rw [hval, hpow] at hhi
          rw [hpown]
          omega
        simp only [goAtoi]
        rw [if_neg hns, parseDigits_eq, if_pos hdec]
        dsimp only
        rw [if_neg hm, if_pos hlt, hval]

/-- `goAtoi` fails on every well-formed numeral outside the signed 64-bit
range: no wraparound, no clamping. -/
theorem goAtoi_none_out_of_range (s : Str) (hnum : isNumeral s = true)
    (hr : numeralValue s < -(2 ^ 63) ∨ 2 ^ 63 - 1 < numeralValue s) :
    goAtoi s = none := by
  rcases s with _ | ⟨c, t⟩
  · rfl
  · have hpow : (2 : Int) ^ 63 = 9223372036854775808 := by norm_num
    have hpown : (2 : Nat) ^ 63 = 9223372036854775808 := by norm_num
    by_cases hm : c = '-'
    · have hdec : decDigits t = true := by
        simp only [isNumeral] at hnum
        rwa [if_pos (Or.inr hm)] at hnum
      have hval : numeralValue (c :: t) = -(digitsVal t : Int) := by
        simp only [numeralValue]
        rw [if_pos hm]
      have hgt : ¬ (digitsVal t ≤ 2 ^ 63) := by
        rw [hval, hpow] at hr
        rw [hpown]
        omega
      simp only [goAtoi]
      rw [if_pos (Or.inr hm), parseDigits_eq, if_pos hdec]
      dsimp only
      rw [if_pos hm, if_neg hgt]
    · by_cases hp : c = '+'
      · have hdec : decDigits t = true := by
          simp only [isNumeral] at hnum
          rwa [if_pos (Or.inl hp)] at hnum
        have hval : numeralValue (c :: t) = (digitsVal t : Int) := by
          simp only [numeralValue]
          rw [if_neg hm, if_pos hp]
        have hgt : ¬ (digitsVal t < 2 ^ 63) := by
          rw [hval, hpow] at hr
          rw [hpown]
          omega
        simp only [goAtoi]
        rw [if_pos (Or.inl hp), parseDigits_eq, if_pos hdec]
        dsimp only
        rw [if_neg hm, if_neg hgt]
      · have hns : ¬ (c = '+' ∨ c = '-') := by
          rintro (h | h)
          exacts [hp h, hm h]
        have hdec : decDigits (c :: t) = true := by
          simp only [isNumeral] at hnum
          rwa [if_neg hns] at hnum
        have hval : numeralValue (c :: t) = (digitsVal (c :: t) : Int) := by
          simp only [numeralValue]
          rw [if_neg hm, if_neg hp]
        have hgt : ¬ (digitsVal (c :: t) < 2 ^ 63) := by
          rw [hval, hpow] at hr
          rw [hpown]
          omega
        simp only [goAtoi]
        rw [if_neg hns, parseDigits_eq, if_pos hdec]
        dsimp only
        rw [if_neg hm, if_neg hgt]

/-- C8: `GetIntDef` parses the resolved string as a base-10 signed
integer and returns the parsed value (here: every well-formed numeral in
the signed 64-bit range yields its mathematical value); when parsing
fails — unparsable or empty resolved string — it returns the default;
and `GetInt` equals `GetIntDef` with default 0. -/
theorem getIntDef_parses_base10 (w : EnvWrapper) (env : Env) (name : Str)
    (d : Int) :
    ((isNumeral (GetString w env name) = true ∧
        -(2 ^ 63) ≤ numeralValue (GetString w env name) ∧
        numeralValue (GetString w env name) < 2 ^ 63) →
      GetIntDef w env name d = numeralValue (GetString w env name)) ∧
    (goAtoi (GetString w env name) = none → GetIntDef w env name d = d) ∧
    GetInt w env name = GetIntDef w env name 0 := by
  refine ⟨?_, ?_, rfl⟩
  · rintro ⟨h1, h2, h3⟩
    rw [getIntDef_eq, goAtoi_eq_some _ h1 h2 h3]
    rfl
  · intro h
    rw [getIntDef_eq, h]
    rfl

/-- Witness for C8: `N=42` parses to 42, `M=abc` yields the default 7. -/
theorem getIntDef_parses_base10_witness :
    GetIntDef wEmpty envFix (str "n") 7 =
      numeralValue (GetString wEmpty envFix (str "n")) ∧
    GetIntDef wEmpty envFix (str "m") 7 = 7 :=
  ⟨(getIntDef_parses_base10 wEmpty envFix (str "n") 7).1 (by decide),
   (getIntDef_parses_base10 wEmpty envFix (str "m") 7).2.1 (by decide)⟩

/-- C10: a resolved string that is a well-formed base-10 numeral outside
the signed 64-bit range is treated exactly like a parse failure:
`GetIntDef` returns the caller default, with no wraparound and no
clamping. -/
theorem getIntDef_out_of_range (w : EnvWrapper) (env : Env) (name : Str)
    (d : Int)
    (hnum : isNumeral (GetString w env name) = true)
    (hr : numeralValue (GetString w env name) < -(2 ^ 63) ∨
      2 ^ 63 - 1 < numeralValue (GetString w env name)) :
    GetIntDef w env name d = d := by
  rw [getIntDef_eq, goAtoi_none_out_of_range _ hnum hr]
  rfl

/-- Witness for C10: `BIG=9223372036854775808` (equal to 2^63, one past
the largest signed 64-bit integer) yields the default 7. -/
theorem getIntDef_out_of_range_witness :
    isNumeral (GetString wEmpty envFix (str "big")) = true ∧
    GetIntDef wEmpty envFix (str "big") 7 = 7 :=
  ⟨by decide,
   getIntDef_out_of_range wEmpty envFix (str "big") 7 (by decide)
     (Or.inr (by decide))⟩

end EnvWrapperModel
